import Mathlib

/-!
Verification of the recurrence / series / overlap engine of
SimpleKanbanCalendar (src/main.go).

The program stores timestamps as local civil time strings
"YYYY-MM-DD HH:MM" and manipulates them through Go's `time` package
(`time.Date`, `Time.AddDate`, `Time.Weekday`, `Before`/`After`/`Equal`,
`Add`).  All times the program constructs are whole seconds in a single
fixed local offset (the spec's "single local civil-time notion"), so a
timestamp is embedded as an `Int`: the number of seconds since civil
0001-01-01 00:00:00.  The first section reimplements, over that
representation, exactly the proleptic-Gregorian arithmetic that Go's
`time` package performs: `time.Date` normalizes out-of-range months by
floor division into years and out-of-range days/hours/minutes linearly
into the absolute count, `AddDate` decomposes into civil fields, offsets
them and renormalizes, and `Weekday` is the day count mod 7 anchored so
that 0001-01-01 is a Monday.
-/

/-- Go `isLeap`: a proleptic-Gregorian leap year. -/
def isLeap (y : Int) : Bool := y % 4 == 0 && (y % 100 != 0 || y % 400 == 0)

/-- Length in days of month `m` (1 = January) of a year with leap flag `l`.
Out-of-range `m` never arises after normalization; the if-chain still
totalizes it. -/
def monthLen (l : Bool) (m : Int) : Int :=
  if m = 2 then (if l then 29 else 28)
  else if m = 4 ∨ m = 6 ∨ m = 9 ∨ m = 11 then 30
  else 31

/-- Days from the start of the year to the start of month `m` (1 = January),
Go's `daysBefore` table. `m = 13` gives the year length. -/
def daysBefore (l : Bool) (m : Int) : Int :=
  let c : Int := if l then 1 else 0
  if m ≤ 1 then 0
  else if m = 2 then 31
  else if m = 3 then 59 + c
  else if m = 4 then 90 + c
  else if m = 5 then 120 + c
  else if m = 6 then 151 + c
  else if m = 7 then 181 + c
  else if m = 8 then 212 + c
  else if m = 9 then 243 + c
  else if m = 10 then 273 + c
  else if m = 11 then 304 + c
  else if m = 12 then 334 + c
  else 365 + c

/-- Days from civil 0001-01-01 to the first day of year `y`
(365·(y−1) plus the Gregorian leap-year count below `y`). -/
def yearStart (y : Int) : Int :=
  365 * (y - 1) + (y - 1) / 4 - (y - 1) / 100 + (y - 1) / 400

/-- Days from civil 0001-01-01 to the first day of linear month index `M`
(`M = 12·year + month − 1`, so index 0 is January of year 0). -/
def monthStart (M : Int) : Int :=
  yearStart (M / 12) + daysBefore (isLeap (M / 12)) (M % 12 + 1)

/-- Day number (days since 0001-01-01) of civil date `(y, m, d)`, with the
same normalization Go's `time.Date` applies: months by floor division into
years, days linearly. -/
def rataDie (y m d : Int) : Int := monthStart (12 * y + m - 1) + (d - 1)

/-- Seconds since civil 0001-01-01 00:00:00 of the (normalized) civil
timestamp `(y, m, d, hh, mi, ss)` — the embedding of Go's `time.Date`. -/
def mkTime (y m d hh mi ss : Int) : Int :=
  ((rataDie y m d * 24 + hh) * 60 + mi) * 60 + ss

/-- Largest `x` in `[x0, x0 + fuel]` with `f x ≤ z`, by forward scan:
the generic step used to invert the monotone `yearStart` / `daysBefore`. -/
def searchLast (f : Int → Int) (z : Int) (x0 : Int) : Nat → Int
  | 0 => x0
  | fuel + 1 => if z < f (x0 + 1) then x0 else searchLast f z (x0 + 1) fuel

/-- The civil year containing day number `z`: seed at the start of the
enclosing 400-year cycle (146097 days each) and scan. -/
def yearOf (z : Int) : Int := searchLast yearStart z (400 * (z / 146097) + 1) 400

/-- Civil `(year, month, day)` of day number `z` — the embedding of Go's
`Time.Date` field decomposition. -/
def civilFromDays (z : Int) : Int × Int × Int :=
  let y := yearOf z
  let doy := z - yearStart y
  let m := searchLast (daysBefore (isLeap y)) doy 1 12
  (y, m, doy - daysBefore (isLeap y) m + 1)

/-- A civil date-time, the field view Go exposes via `Date()` and `Clock()`. -/
structure CivilDateTime where
  year : Int
  month : Int
  day : Int
  hour : Int
  minute : Int
  second : Int
deriving DecidableEq, Repr

/-- Decompose a timestamp into its civil fields. -/
def civil (t : Int) : CivilDateTime :=
  let z := t / 86400
  let sod := t % 86400
  let ymd := civilFromDays z
  ⟨ymd.1, ymd.2.1, ymd.2.2, sod / 3600, sod % 3600 / 60, sod % 60⟩

/-- Go `Time.AddDate(years, months, days)`: decompose, offset the civil
fields, renormalize. -/
def addDate (t years months days : Int) : Int :=
  let c := civil t
  mkTime (c.year + years) (c.month + months) (c.day + days) c.hour c.minute c.second

/-- Go `Time.Weekday()` as an `Int`, 0 = Sunday: anchored so that
0001-01-01 (day number 0) is a Monday. -/
def weekday (t : Int) : Int := (t / 86400 + 1) % 7

-- ### Calendar lemmas

theorem monthLen_ge (l : Bool) (m : Int) : 28 ≤ monthLen l m := by
  unfold monthLen; split
  · split <;> omega
  · split <;> omega

theorem monthLen_le (l : Bool) (m : Int) : monthLen l m ≤ 31 := by
  unfold monthLen; split
  · split <;> omega
  · split <;> omega

theorem daysBefore_succ (l : Bool) (m : Int) (h1 : 1 ≤ m) (h2 : m ≤ 12) :
    daysBefore l (m + 1) = daysBefore l m + monthLen l m := by
  interval_cases m <;> cases l <;> simp [daysBefore, monthLen]

theorem yearStart_succ (y : Int) :
    yearStart (y + 1) = yearStart y + (if isLeap y then 366 else 365) := by
  have h4 : y / 4 - (y - 1) / 4 = if (4:Int) ∣ y then 1 else 0 := by split <;> omega
  have h100 : y / 100 - (y - 1) / 100 = if (100:Int) ∣ y then 1 else 0 := by split <;> omega
  have h400 : y / 400 - (y - 1) / 400 = if (400:Int) ∣ y then 1 else 0 := by split <;> omega
  unfold yearStart isLeap
  simp only [Bool.and_eq_true, Bool.or_eq_true, beq_iff_eq, bne_iff_ne]
  split
  · rename_i hl
    obtain ⟨ha, hb⟩ := hl
    rcases hb with hb | hb <;> split at h4 <;> split at h100 <;> split at h400 <;> omega
  · rename_i hl
    rw [not_and_or] at hl
    rcases hl with hl | hl
    · split at h4 <;> split at h100 <;> split at h400 <;> omega
    · rw [not_or, not_not] at hl
      obtain ⟨ha, hb⟩ := hl
      split at h4 <;> split at h100 <;> split at h400 <;> omega

theorem daysBefore_year (l : Bool) : daysBefore l 13 = if l then 366 else 365 := by
  cases l <;> simp [daysBefore]

theorem monthStart_succ (M : Int) :
    monthStart (M + 1) = monthStart M + monthLen (isLeap (M / 12)) (M % 12 + 1) := by
  rcases lt_or_ge (M % 12) 11 with h | h
  · have e1 : (M + 1) / 12 = M / 12 := by omega
    have e2 : (M + 1) % 12 = M % 12 + 1 := by omega
    unfold monthStart
    rw [e1, e2, daysBefore_succ _ _ (by omega) (by omega)]
    ring
  · have h11 : M % 12 = 11 := by omega
    have e1 : (M + 1) / 12 = M / 12 + 1 := by omega
    have e2 : (M + 1) % 12 = 0 := by omega
    unfold monthStart
    rw [e1, e2, h11, yearStart_succ]
    have hrec : daysBefore (isLeap (M / 12)) 13 =
        daysBefore (isLeap (M / 12)) 12 + monthLen (isLeap (M / 12)) 12 := by
      have h := daysBefore_succ (isLeap (M / 12)) 12 (by omega) (by omega)
      norm_num at h
      exact h
    have hz : daysBefore (isLeap (M / 12 + 1)) (0 + 1) = 0 := by
      cases isLeap (M / 12 + 1) <;> simp [daysBefore]
    have h13 := daysBefore_year (isLeap (M / 12))
    rw [hz]
    norm_num
    cases hL : isLeap (M / 12) <;> simp only [hL, if_true, if_false] at h13 hrec ⊢ <;> omega

theorem monthStart_step_ge (M : Int) : monthStart M + 28 ≤ monthStart (M + 1) := by
  rw [monthStart_succ]
  have := monthLen_ge (isLeap (M / 12)) (M % 12 + 1)
  omega

theorem monthStart_le_of_le {M N : Int} (h : M ≤ N) : monthStart M ≤ monthStart N := by
  have key : ∀ k : Nat, monthStart M ≤ monthStart (M + k) := by
    intro k
    induction k with
    | zero => simp
    | succ n ih =>
      have hstep := monthStart_step_ge (M + n)
      have : M + (↑(n + 1) : Int) = (M + n) + 1 := by push_cast; ring
      rw [this]
      omega
  have hk : N = M + ((N - M).toNat : Int) := by omega
  rw [hk]; exact key _

theorem monthStart_strictMono {M N : Int} (h : M < N) : monthStart M < monthStart N := by
  have h1 := monthStart_step_ge M
  have h2 := monthStart_le_of_le (show M + 1 ≤ N by omega)
  omega

theorem searchLast_spec (f : Int → Int) (z : Int) (fuel : Nat) :
    ∀ x0 : Int, f x0 ≤ z → z < f (x0 + fuel) →
      f (searchLast f z x0 fuel) ≤ z ∧ z < f (searchLast f z x0 fuel + 1) ∧
      x0 ≤ searchLast f z x0 fuel ∧ searchLast f z x0 fuel < x0 + fuel := by
  induction fuel with
  | zero =>
    intro x0 h1 h2
    simp only [Nat.cast_zero, add_zero] at h2
    omega
  | succ n ih =>
    intro x0 h1 h2
    simp only [searchLast]
    split
    · rename_i h
      refine ⟨h1, h, le_refl _, ?_⟩
      push_cast
      omega
    · rename_i h
      have h1' : f (x0 + 1) ≤ z := by omega
      have h2' : z < f (x0 + 1 + n) := by
        have e : x0 + 1 + (n : Int) = x0 + ((n + 1 : Nat) : Int) := by push_cast; ring
        rw [e]; exact h2
      obtain ⟨a, b, c, d⟩ := ih (x0 + 1) h1' h2'
      refine ⟨a, b, by omega, ?_⟩
      push_cast at d ⊢
      omega

theorem yearStart_cycle (k : Int) : yearStart (400 * k + 1) = 146097 * k := by
  unfold yearStart; omega

theorem yearOf_spec (z : Int) : yearStart (yearOf z) ≤ z ∧ z < yearStart (yearOf z + 1) := by
  have h1 : yearStart (400 * (z / 146097) + 1) ≤ z := by rw [yearStart_cycle]; omega
  have h2 : z < yearStart (400 * (z / 146097) + 1 + (400 : Nat)) := by
    have e : (400 * (z / 146097) + 1 + ((400 : Nat) : Int)) = 400 * (z / 146097 + 1) + 1 := by
      push_cast; ring
    rw [e, yearStart_cycle]; omega
  obtain ⟨a, b, _, _⟩ := searchLast_spec yearStart z 400 _ h1 h2
  exact ⟨a, b⟩

theorem daysBefore_one (l : Bool) : daysBefore l 1 = 0 := by
  cases l <;> simp [daysBefore]

theorem monthStart_split (y m : Int) (h1 : 1 ≤ m) (h2 : m ≤ 12) :
    monthStart (12 * y + m - 1) = yearStart y + daysBefore (isLeap y) m := by
  have hdiv : (12 * y + m - 1) / 12 = y := by omega
  have hmod : (12 * y + m - 1) % 12 = m - 1 := by omega
  unfold monthStart
  rw [hdiv, hmod]
  have e : m - 1 + 1 = m := by omega
  rw [e]

theorem civilFromDays_spec (z : Int) :
    rataDie (civilFromDays z).1 (civilFromDays z).2.1 (civilFromDays z).2.2 = z ∧
    1 ≤ (civilFromDays z).2.1 ∧ (civilFromDays z).2.1 ≤ 12 ∧
    1 ≤ (civilFromDays z).2.2 ∧
    (civilFromDays z).2.2 ≤ monthLen (isLeap (civilFromDays z).1) (civilFromDays z).2.1 := by
  obtain ⟨hy1, hy2⟩ := yearOf_spec z
  have h1 : daysBefore (isLeap (yearOf z)) 1 ≤ z - yearStart (yearOf z) := by
    rw [daysBefore_one]; omega
  have h2 : z - yearStart (yearOf z) < daysBefore (isLeap (yearOf z)) (1 + (12 : Nat)) := by
    have e : ((1 : Int) + ((12 : Nat) : Int)) = 13 := by norm_num
    rw [e]
    have h13 := daysBefore_year (isLeap (yearOf z))
    have hys := yearStart_succ (yearOf z)
    cases hb : isLeap (yearOf z) <;>
      simp only [hb, if_true, if_false] at h13 hys <;> omega
  obtain ⟨hm1, hm2, hm3, hm4⟩ :=
    searchLast_spec (daysBefore (isLeap (yearOf z))) (z - yearStart (yearOf z)) 12 1 h1 h2
  have hm12 : searchLast (daysBefore (isLeap (yearOf z))) (z - yearStart (yearOf z)) 1 12 ≤ 12 := by
    push_cast at hm4; omega
  have hrec := daysBefore_succ (isLeap (yearOf z)) _ hm3 hm12
  have hcf : civilFromDays z =
      (yearOf z, searchLast (daysBefore (isLeap (yearOf z))) (z - yearStart (yearOf z)) 1 12,
        z - yearStart (yearOf z) -
          daysBefore (isLeap (yearOf z))
            (searchLast (daysBefore (isLeap (yearOf z))) (z - yearStart (yearOf z)) 1 12) + 1) := rfl
  rw [hcf]
  dsimp only
  refine ⟨?_, hm3, hm12, by omega, by omega⟩
  unfold rataDie
  rw [monthStart_split (yearOf z) _ hm3 hm12]
  omega

theorem monthStart_bracket_unique {M N : Int} (z : Int)
    (hM1 : monthStart M ≤ z) (hM2 : z < monthStart (M + 1))
    (hN1 : monthStart N ≤ z) (hN2 : z < monthStart (N + 1)) : M = N := by
  by_contra h
  rcases lt_or_gt_of_ne h with h | h
  · have := monthStart_le_of_le (show M + 1 ≤ N by omega); omega
  · have := monthStart_le_of_le (show N + 1 ≤ M by omega); omega

theorem rataDie_civil (t : Int) :
    rataDie (civil t).year (civil t).month (civil t).day = t / 86400 :=
  (civilFromDays_spec (t / 86400)).1

theorem civil_day_bounds (t : Int) :
    1 ≤ (civil t).month ∧ (civil t).month ≤ 12 ∧ 1 ≤ (civil t).day ∧
    (civil t).day ≤ monthLen (isLeap (civil t).year) (civil t).month :=
  ⟨(civilFromDays_spec (t / 86400)).2.1, (civilFromDays_spec (t / 86400)).2.2.1,
    (civilFromDays_spec (t / 86400)).2.2.2.1, (civilFromDays_spec (t / 86400)).2.2.2.2⟩

theorem civil_clock (t : Int) :
    (civil t).hour = t % 86400 / 3600 ∧ (civil t).minute = t % 86400 % 3600 / 60 ∧
    (civil t).second = t % 86400 % 60 :=
  ⟨rfl, rfl, rfl⟩

theorem mkTime_civil (t : Int) :
    mkTime (civil t).year (civil t).month (civil t).day
      (civil t).hour (civil t).minute (civil t).second = t := by
  have hz := rataDie_civil t
  obtain ⟨hh, hmi, hss⟩ := civil_clock t
  unfold mkTime
  rw [hz, hh, hmi, hss]
  omega

/-- Linear month index (`12·year + month − 1`) of a timestamp's civil date. -/
def monthIdx (t : Int) : Int := 12 * (civil t).year + (civil t).month - 1

theorem mkTime_day_shift (y m d k hh mi ss : Int) :
    mkTime y m (d + k) hh mi ss = mkTime y m d hh mi ss + 86400 * k := by
  unfold mkTime rataDie; ring

theorem mkTime_month_shift (y m n d hh mi ss : Int) :
    mkTime y (m + n) d hh mi ss =
      mkTime y m d hh mi ss +
        86400 * (monthStart (12 * y + m - 1 + n) - monthStart (12 * y + m - 1)) := by
  unfold mkTime rataDie
  have e : 12 * y + (m + n) - 1 = 12 * y + m - 1 + n := by ring
  rw [e]; ring

theorem mkTime_year_shift (y n m d hh mi ss : Int) :
    mkTime (y + n) m d hh mi ss =
      mkTime y m d hh mi ss +
        86400 * (monthStart (12 * y + m - 1 + 12 * n) - monthStart (12 * y + m - 1)) := by
  unfold mkTime rataDie
  have e : 12 * (y + n) + m - 1 = 12 * y + m - 1 + 12 * n := by ring
  rw [e]; ring

theorem addDate_days (t k : Int) : addDate t 0 0 k = t + 86400 * k := by
  unfold addDate
  simp only [add_zero]
  rw [mkTime_day_shift, mkTime_civil]

theorem addDate_months (t n : Int) :
    addDate t 0 n 0 = t + 86400 * (monthStart (monthIdx t + n) - monthStart (monthIdx t)) := by
  unfold addDate
  simp only [add_zero]
  rw [mkTime_month_shift, mkTime_civil]
  unfold monthIdx
  rfl

theorem addDate_years (t n : Int) :
    addDate t n 0 0 =
      t + 86400 * (monthStart (monthIdx t + 12 * n) - monthStart (monthIdx t)) := by
  unfold addDate
  simp only [add_zero]
  rw [mkTime_year_shift, mkTime_civil]
  unfold monthIdx
  rfl

theorem addDate_days_gt (t k : Int) (h : 1 ≤ k) : t < addDate t 0 0 k := by
  rw [addDate_days]; omega

theorem addDate_months_gt (t n : Int) (h : 1 ≤ n) : t < addDate t 0 n 0 := by
  rw [addDate_months]
  have := monthStart_strictMono (show monthIdx t < monthIdx t + n by omega)
  omega

theorem addDate_years_gt (t n : Int) (h : 1 ≤ n) : t < addDate t n 0 0 := by
  rw [addDate_years]
  have := monthStart_strictMono (show monthIdx t < monthIdx t + 12 * n by omega)
  omega

theorem weekday_addDate_days (t k : Int) :
    weekday (addDate t 0 0 k) = (t / 86400 + k + 1) % 7 := by
  rw [addDate_days]; unfold weekday; omega

/-!
## Application data model (src/main.go)

`TodoItem` embeds the Go struct of the same name; the `Start`/`End` strings
("YYYY-MM-DD HH:MM", parsed at every use site with `time.ParseInLocation`)
are embedded directly as the parsed timestamp, which is faithful because
every timestamp the program writes is minute-aligned, so
format-then-reparse is the identity. Go's `End` is `endTime` here (`end`
is a Lean keyword).
-/

namespace SKC

inductive ItemType
  | Task
  | Event
deriving DecidableEq, Repr

structure Group where
  id : String
  name : String
  colorHex : String
  sortMode : String
deriving DecidableEq, Repr

structure TodoItem where
  id : String
  title : String
  start : Int
  endTime : Int
  itemType : ItemType
  groupID : String
  completed : Bool
  seriesID : String
deriving DecidableEq, Repr

/-- The four options of `recUnitSelect` ("Day(s)", "Week(s)", "Month(s)",
"Year(s)"); the widget's option list is closed, so the `switch` in
`handleSidebarAction` always hits one of these cases. -/
inductive RecUnit
  | days
  | weeks
  | months
  | years
deriving DecidableEq, Repr

/-- The two options of `recOrdinalSelect` ("Every" / "Every Other"). -/
inductive RecOrdinal
  | every
  | everyOther
deriving DecidableEq, Repr

/-- The recurrence configuration of the sidebar: `recModeRadio` chooses
between the Interval inputs (`recNumEntry` parsed by `strconv.Atoi`, so an
arbitrary `Int`, plus `recUnitSelect`) and the Specific-Day inputs
(`recOrdinalSelect` plus `recDaySelect`, mapped to `time.Weekday`, an
integer with Sunday = 0). -/
inductive RecRule
  | interval (n : Int) (unit : RecUnit)
  | specificDay (ordinal : RecOrdinal) (targetWeekday : Int)
deriving DecidableEq, Repr

/-- The weekday-search loop of `handleSidebarAction`: `daysToAdd` starts at
1 and grows until the weekday matches. Go's loop is unbounded; it finds a
match within 7 days whenever the target is a real weekday (the only values
`recDaySelect` produces), so 7 probes suffice; the fallback arm is dead
code for those targets. -/
def findWeekdayStep (t target : Int) : Nat → Int → Int
  | 0, _ => addDate t 0 0 7
  | fuel + 1, k =>
    if weekday (addDate t 0 0 k) = target then addDate t 0 0 k
    else findWeekdayStep t target fuel (k + 1)

def nextWeekdayDate (t target : Int) : Int := findWeekdayStep t target 7 1

/-- One step of the recurrence loop in `handleSidebarAction`: compute the
next `currentDate` from the rule (Interval: `AddDate` by the clamped
count; Specific Day: next matching weekday, plus 7 more days for "Every
Other"). -/
def nextDate (rule : RecRule) (currentDate : Int) : Int :=
  match rule with
  | .interval n unit =>
    let n' := if n < 1 then 1 else n
    match unit with
    | .days => addDate currentDate 0 0 n'
    | .weeks => addDate currentDate 0 0 (n' * 7)
    | .months => addDate currentDate 0 n' 0
    | .years => addDate currentDate n' 0 0
  | .specificDay ord target =>
    let d := nextWeekdayDate currentDate target
    match ord with
    | .every => d
    | .everyOther => addDate d 0 0 7

/-- The recurrence loop body of `handleSidebarAction` (`for count < 100`):
advance `currentDate`, stop without emitting once it is strictly after
`limitDate`, otherwise emit `(start, end)` = `(currentDate,
currentDate.Add(duration))` and continue. The `Nat` fuel is the remaining
budget `100 − count`. -/
def expandAux (rule : RecRule) (limitDate duration : Int) : Int → Nat → List (Int × Int)
  | _, 0 => []
  | currentDate, fuel + 1 =>
    let nd := nextDate rule currentDate
    if limitDate < nd then []
    else (nd, nd + duration) :: expandAux rule limitDate duration nd fuel

/-- The generated (start, end) pairs of a recurrence expansion:
`limitDate = baseStart.AddDate(1, 0, 0)`, duration = `baseEnd − baseStart`,
at most 100 emissions. The base occurrence itself is appended by the
caller, not produced here. -/
def expand (rule : RecRule) (baseStart baseEnd : Int) : List (Int × Int) :=
  expandAux rule (addDate baseStart 1 0 0) (baseEnd - baseStart) baseStart 100

/-- The three delete choices `performSmartDelete` offers for a recurring
item ("This Only" / "This + Future" / "All"); for a non-series item only
the plain confirm exists, which behaves as `thisOnly`. -/
inductive DeleteScope
  | thisOnly
  | thisAndFuture
  | all
deriving DecidableEq, Repr

/-- `performSmartDelete` (src/main.go): locate the first item with the
target id (absent target: no-op); a target without series id gets the
plain confirmed delete (filter by id); a series target is deleted by the
chosen scope's filter. -/
def performSmartDelete (items : List TodoItem) (targetID : String) (scope : DeleteScope) :
    List TodoItem :=
  match items.find? (fun i => i.id == targetID) with
  | none => items
  | some targetItem =>
    if targetItem.seriesID = "" then items.filter (fun i => !(i.id == targetID))
    else
      match scope with
      | .thisOnly => items.filter (fun i => !(i.id == targetID))
      | .thisAndFuture =>
          items.filter (fun i =>
            !(i.seriesID == targetItem.seriesID) || decide (i.start < targetItem.start))
      | .all => items.filter (fun i => !(i.seriesID == targetItem.seriesID))

/-- The 12-hour to 24-hour conversion inside the `combine` closures of
`autoSave` / `handleSidebarAction`. -/
def to24Hour (h : Int) (isPM : Bool) : Int :=
  if isPM ∧ h ≠ 12 then h + 12
  else if ¬isPM ∧ h = 12 then 0
  else h

/-- `combine(dateStr, h, m, ap)`: the timestamp "dateStr HH:MM" where
`day` is the picker date's day number (`rataDie` of the picked date). -/
def combine (day h mi : Int) (isPM : Bool) : Int :=
  day * 86400 + to24Hour h isPM * 3600 + mi * 60

/-- The date/time picker state read by `autoSave` and
`handleSidebarAction`: deadline picker (tasks), start and end pickers
(events), each a date (as a day number) plus a 12-hour clock selection. -/
structure SidebarTimes where
  taskDay : Int
  taskH : Int
  taskM : Int
  taskPM : Bool
  startDay : Int
  startH : Int
  startM : Int
  startPM : Bool
  endDay : Int
  endH : Int
  endM : Int
  endPM : Bool
deriving DecidableEq, Repr

/-- The field update `autoSave` applies to the found target item: title,
group (only when the selected name matches a group), type from the type
selector, and start/end rebuilt from the pickers of the current type. -/
def updatedItem (title groupSel typeSel : String) (tv : SidebarTimes) (groups : List Group)
    (item : TodoItem) : TodoItem :=
  let groupID :=
    match groups.find? (fun g => g.name == groupSel) with
    | some g => g.id
    | none => item.groupID
  let ty := if typeSel = "Event" then ItemType.Event else ItemType.Task
  match ty with
  | .Task =>
    let v := combine tv.taskDay tv.taskH tv.taskM tv.taskPM
    { item with title := title, groupID := groupID, itemType := ty, start := v, endTime := v }
  | .Event =>
    { item with
        title := title
        groupID := groupID
        itemType := ty
        start := combine tv.startDay tv.startH tv.startM tv.startPM
        endTime := combine tv.endDay tv.endH tv.endM tv.endPM }

/-- `autoSave` (src/main.go): bail out silently when no edit is in
progress, the title entry is empty, or no stored item carries the edit id;
otherwise rewrite the first matching item's fields in place. The
`Option String` component is the surfaced-error channel of the UI
(`dialog.ShowError`); `autoSave` contains no such call, so it is always
`none`. -/
def autoSave (currentEditItemID title groupSel typeSel : String) (tv : SidebarTimes)
    (groups : List Group) (items : List TodoItem) : Option String × List TodoItem :=
  if currentEditItemID = "" then (none, items)
  else if title = "" then (none, items)
  else
    match items.findIdx? (fun i => i.id == currentEditItemID) with
    | none => (none, items)
    | some idx =>
      match items[idx]? with
      | some it => (none, items.set idx (updatedItem title groupSel typeSel tv groups it))
      | none => (none, items)

/-- The inputs `handleSidebarAction` reads from the sidebar widgets, plus
the identities it mints (`time.Now().UnixNano()`-derived strings, supplied
here by the caller). -/
structure CreateInput where
  title : String
  groupSel : String
  typeSel : String
  times : SidebarTimes
  recChecked : Bool
  recRule : RecRule
  baseID : String
  newSeriesID : String
  genID : Nat → String

/-- `handleSidebarAction` (src/main.go): validation (empty title; empty
group selection falls back to the first group and only errors when no
groups exist), then builds the base item and, when recurring, the expanded
siblings, and appends them all to the store. The `Option String` is the
surfaced `dialog.ShowError` message; `none` means creation happened. -/
def handleSidebarAction (inp : CreateInput) (groups : List Group) (items : List TodoItem) :
    Option String × List TodoItem :=
  if inp.title = "" then (some "title required", items)
  else
    let selectedGroupID0 :=
      match groups.find? (fun g => g.name == inp.groupSel) with
      | some g => g.id
      | none => ""
    let selectedGroupID :=
      if selectedGroupID0 = "" then
        match groups with
        | [] => ""
        | g :: _ => g.id
      else selectedGroupID0
    if selectedGroupID = "" then (some "please select a group", items)
    else
      let curType := if inp.typeSel = "Event" then ItemType.Event else ItemType.Task
      let sVal :=
        match curType with
        | .Event => combine inp.times.startDay inp.times.startH inp.times.startM inp.times.startPM
        | .Task => combine inp.times.taskDay inp.times.taskH inp.times.taskM inp.times.taskPM
      let eVal :=
        match curType with
        | .Event => combine inp.times.endDay inp.times.endH inp.times.endM inp.times.endPM
        | .Task => sVal
      let newSeriesID := if inp.recChecked then inp.newSeriesID else ""
      let baseItem : TodoItem :=
        ⟨inp.baseID, inp.title, sVal, eVal, curType, selectedGroupID, false, newSeriesID⟩
      let gens :=
        if inp.recChecked then
          (expand inp.recRule sVal eVal).mapIdx
            (fun k p => { baseItem with id := inp.genID k, start := p.1, endTime := p.2 })
        else []
      (none, items ++ baseItem :: gens)

/-- The per-day membership test of `refreshCalendar`:
`s.Before(dayEnd) && (e.After(dayStart) || e.Equal(dayStart))`. -/
def matchesDay (item : TodoItem) (dayStart dayEnd : Int) : Bool :=
  decide (item.start < dayEnd) && (decide (dayStart < item.endTime) || item.endTime == dayStart)

/-- `refreshCalendar`'s day bounds: `time.Date(y, m, d, 0, 0, 0)`. -/
def dayStartOf (y m d : Int) : Int := mkTime y m d 0 0 0

/-- `refreshCalendar`'s day bounds: `time.Date(y, m, d, 23, 59, 59)`. -/
def dayEndOf (y m d : Int) : Int := mkTime y m d 23 59 59

/-- One record at the interchange (.ics) boundary, per the VEVENT fields
the program reads/writes: UID, SUMMARY, DTSTART, DTEND. Optional fields
model `GetProperty` returning nil; DTSTART/DTEND hold the raw serialized
property value strings, which is what both `exportICS` (via the
golang-ical `SetStartAt`/`SetEndAt` formatters) and `importICS` (via
`time.Parse` on `start.Value`/`end.Value`) traffic in. -/
structure VEventRec where
  uid : String
  summary : Option String
  dtStart : Option String
  dtEnd : Option String
deriving DecidableEq, Repr

/-- Go's zero `time.Time` (January 1, year 1, 00:00:00), the value
`time.Parse` returns on error and `eTime.IsZero()` tests in
`importICS`. -/
def goZeroTime : Int := mkTime 1 1 1 0 0 0

/-- Decimal digit value of a character (meaningful when `c.isDigit`). -/
def digitVal (c : Char) : Int := (c.toNat : Int) - 48

def num2 (a b : Char) : Int := 10 * digitVal a + digitVal b

def num4 (a b c d : Char) : Int :=
  1000 * digitVal a + 100 * digitVal b + 10 * digitVal c + digitVal d

/-- Zero-pad to two decimal digits (Go `Format` "01"/"02"/"15"/"04"/"05"
components; the fields formatted by the program are always in range). -/
def pad2 (n : Int) : String := if 0 ≤ n ∧ n < 10 then "0" ++ toString n else toString n

/-- Zero-pad to four decimal digits (Go `Format` "2006" year component;
exported years are in 1..9999). -/
def pad4 (n : Int) : String :=
  if 0 ≤ n ∧ n < 10 then "000" ++ toString n
  else if 0 ≤ n ∧ n < 100 then "00" ++ toString n
  else if 0 ≤ n ∧ n < 1000 then "0" ++ toString n
  else toString n

/-- golang-ical's `icalTimestampFormatUtc`: `SetStartAt`/`SetEndAt`
serialize `t.UTC().Format("20060102T150405Z")` — the trailing `Z` is a
literal in the layout. The single-offset civil frame of this embedding
makes the UTC conversion the identity on the fields; the trailing `Z` (the
part every theorem turns on) is there for any offset. -/
def formatICalUTC (t : Int) : String :=
  let c := civil t
  pad4 c.year ++ pad2 c.month ++ pad2 c.day ++ "T" ++ pad2 c.hour ++ pad2 c.minute ++
    pad2 c.second ++ "Z"

/-- Go `time.Parse("20060102T150405", v)` (importICS's first layout):
exactly 15 characters — four-digit year, two-digit month/day, literal
`T`, two-digit hour/minute/second — with the usual range validation;
anything else (including a trailing `Z`) is a parse error, `none`. -/
def parseICalFull (v : String) : Option Int :=
  match v.toList with
  | [y1, y2, y3, y4, mo1, mo2, d1, d2, 'T', h1, h2, mi1, mi2, s1, s2] =>
    let y := num4 y1 y2 y3 y4
    let mo := num2 mo1 mo2
    let d := num2 d1 d2
    let hh := num2 h1 h2
    let mi := num2 mi1 mi2
    let ss := num2 s1 s2
    if (y1.isDigit && y2.isDigit && y3.isDigit && y4.isDigit && mo1.isDigit && mo2.isDigit &&
          d1.isDigit && d2.isDigit && h1.isDigit && h2.isDigit && mi1.isDigit && mi2.isDigit &&
          s1.isDigit && s2.isDigit) = true ∧
        1 ≤ mo ∧ mo ≤ 12 ∧ 1 ≤ d ∧ d ≤ monthLen (isLeap y) mo ∧ hh < 24 ∧ mi < 60 ∧ ss < 60
    then some (mkTime y mo d hh mi ss)
    else none
  | _ => none

/-- Go `time.Parse("20060102", v)` (importICS's fallback layout): exactly
8 digit characters forming a valid date; anything else is a parse error,
`none`. -/
def parseICalDate (v : String) : Option Int :=
  match v.toList with
  | [y1, y2, y3, y4, mo1, mo2, d1, d2] =>
    let y := num4 y1 y2 y3 y4
    let mo := num2 mo1 mo2
    let d := num2 d1 d2
    if (y1.isDigit && y2.isDigit && y3.isDigit && y4.isDigit && mo1.isDigit && mo2.isDigit &&
          d1.isDigit && d2.isDigit) = true ∧
        1 ≤ mo ∧ mo ≤ 12 ∧ 1 ≤ d ∧ d ≤ monthLen (isLeap y) mo
    then some (mkTime y mo d 0 0 0)
    else none
  | _ => none

/-- importICS's DTSTART path: `sTime, err := time.Parse("20060102T150405",
v); if err != nil { sTime, _ = time.Parse("20060102", v) }` — a failed
parse leaves Go's zero time. -/
def goParseStart (v : String) : Int :=
  match parseICalFull v with
  | some t => t
  | none =>
    match parseICalDate v with
    | some t => t
    | none => goZeroTime

/-- importICS's DTEND path: the first layout's result (zero on error),
retried with the date-only layout when it `IsZero()`. -/
def goParseEnd (v : String) : Int :=
  let e1 :=
    match parseICalFull v with
    | some t => t
    | none => goZeroTime
  if e1 = goZeroTime then
    match parseICalDate v with
    | some t => t
    | none => goZeroTime
  else e1

/-- `exportICS` (src/main.go), per item: UID from the item id, summary
"[group name] title" (missing group: empty name, Go's map zero value),
DTSTART/DTEND the golang-ical serializations of the parsed start/end. -/
def exportEvent (groups : List Group) (item : TodoItem) : VEventRec :=
  let gName :=
    match groups.find? (fun g => g.id == item.groupID) with
    | some g => g.name
    | none => ""
  ⟨item.id, some ("[" ++ gName ++ "] " ++ item.title),
    some (formatICalUTC item.start), some (formatICalUTC item.endTime)⟩

def exportICS (groups : List Group) (items : List TodoItem) : List VEventRec :=
  items.map (exportEvent groups)

/-- `importICS` (src/main.go), per record: skip when SUMMARY or DTSTART is
missing; parse DTSTART/DTEND with the two layouts (zero time on failure);
a missing DTEND leaves `eTime = sTime`; classify as `Event` only when the
end differs from the start and is not the zero time; the imported item
gets the default (first) group and no series id. -/
def importEvent (targetGroupID newID : String) (r : VEventRec) : Option TodoItem :=
  match r.summary, r.dtStart with
  | some title, some sv =>
    let sTime := goParseStart sv
    let eTime := match r.dtEnd with | some ev => goParseEnd ev | none => sTime
    let iType :=
      if eTime ≠ sTime ∧ eTime ≠ goZeroTime then ItemType.Event else ItemType.Task
    some ⟨newID, title, sTime, eTime, iType, targetGroupID, false, ""⟩
  | _, _ => none

/-- The import loop: `count` increments only on successful import, and
names each imported item's fresh identity. -/
def importICSAux (targetGroupID : String) (genID : Nat → String) :
    Nat → List VEventRec → List TodoItem
  | _, [] => []
  | count, r :: rest =>
    match importEvent targetGroupID (genID count) r with
    | some it => it :: importICSAux targetGroupID genID (count + 1) rest
    | none => importICSAux targetGroupID genID count rest

def importICS (groups : List Group) (genID : Nat → String) (recs : List VEventRec) :
    List TodoItem :=
  let targetGroupID :=
    match groups with
    | [] => ""
    | g :: _ => g.id
  importICSAux targetGroupID genID 0 recs


end SKC

-- ### Expansion lemmas

namespace SKC

theorem findWeekdayStep_succ (t target : Int) (fuel : Nat) (k : Int) :
    findWeekdayStep t target (fuel + 1) k =
      if weekday (addDate t 0 0 k) = target then addDate t 0 0 k
      else findWeekdayStep t target fuel (k + 1) := rfl

theorem findWeekdayStep_gt (t target : Int) :
    ∀ (fuel : Nat) (k : Int), 1 ≤ k → t < findWeekdayStep t target fuel k := by
  intro fuel
  induction fuel with
  | zero => intro k _; exact addDate_days_gt t 7 (by omega)
  | succ n ih =>
    intro k hk
    rw [findWeekdayStep_succ]
    split
    · exact addDate_days_gt t k hk
    · exact ih (k + 1) (by omega)

theorem findWeekdayStep_first_match (t target : Int) :
    ∀ (fuel : Nat) (k j : Int), k ≤ j → j < k + fuel →
      weekday (addDate t 0 0 j) = target →
      (∀ i : Int, k ≤ i → i < j → weekday (addDate t 0 0 i) ≠ target) →
      findWeekdayStep t target fuel k = addDate t 0 0 j := by
  intro fuel
  induction fuel with
  | zero =>
    intro k j h1 h2 _ _
    simp only [Nat.cast_zero, add_zero] at h2
    omega
  | succ n ih =>
    intro k j h1 h2 h3 h4
    rw [findWeekdayStep_succ]
    by_cases hk : weekday (addDate t 0 0 k) = target
    · rw [if_pos hk]
      have hjk : j = k := by
        by_contra hne
        exact h4 k le_rfl (by omega) hk
      rw [hjk]
    · rw [if_neg hk]
      have hjk : k + 1 ≤ j := by
        rcases eq_or_lt_of_le h1 with h | h
        · exact absurd h3 (h ▸ hk)
        · omega
      refine ih (k + 1) j hjk ?_ h3 (fun i hi1 hi2 => h4 i (by omega) hi2)
      push_cast at h2 ⊢
      omega

theorem nextWeekdayDate_eq (t target : Int) (h0 : 0 ≤ target) (h7 : target < 7) :
    nextWeekdayDate t target = addDate t 0 0 ((target - t / 86400 - 2) % 7 + 1) := by
  unfold nextWeekdayDate
  apply findWeekdayStep_first_match t target 7 1 ((target - t / 86400 - 2) % 7 + 1)
  · omega
  · push_cast; omega
  · rw [weekday_addDate_days]; omega
  · intro i hi1 hi2
    rw [weekday_addDate_days]
    omega

theorem nextWeekdayDate_weekday (t target : Int) (h0 : 0 ≤ target) (h7 : target < 7) :
    weekday (nextWeekdayDate t target) = target := by
  rw [nextWeekdayDate_eq t target h0 h7, weekday_addDate_days]
  omega

theorem nextWeekdayDate_of_eq (t target : Int) (h0 : 0 ≤ target) (h7 : target < 7)
    (ht : weekday t = target) : nextWeekdayDate t target = t + 7 * 86400 := by
  rw [nextWeekdayDate_eq t target h0 h7]
  have he : (target - t / 86400 - 2) % 7 + 1 = 7 := by
    unfold weekday at ht; omega
  rw [he, addDate_days]
  ring

theorem nextDate_gt (rule : RecRule) (cur : Int) : cur < nextDate rule cur := by
  cases rule with
  | interval n unit =>
    have hn : 1 ≤ (if n < 1 then 1 else n) := by split <;> omega
    cases unit with
    | days => exact addDate_days_gt cur _ hn
    | weeks => exact addDate_days_gt cur _ (by omega)
    | months => exact addDate_months_gt cur _ hn
    | years => exact addDate_years_gt cur _ hn
  | specificDay ord target =>
    cases ord with
    | every => exact findWeekdayStep_gt cur target 7 1 (by omega)
    | everyOther =>
      have h1 : cur < nextWeekdayDate cur target := findWeekdayStep_gt cur target 7 1 (by omega)
      have h2 := addDate_days (nextWeekdayDate cur target) 7
      simp only [nextDate]
      omega

theorem expandAux_length_le (rule : RecRule) (lim dur : Int) :
    ∀ (fuel : Nat) (cur : Int), (expandAux rule lim dur cur fuel).length ≤ fuel := by
  intro fuel
  induction fuel with
  | zero => intro cur; simp [expandAux]
  | succ n ih =>
    intro cur
    simp only [expandAux]
    split
    · simp
    · simpa using Nat.succ_le_succ (ih _)

theorem expandAux_start_le (rule : RecRule) (lim dur : Int) :
    ∀ (fuel : Nat) (cur : Int) (p : Int × Int),
      p ∈ expandAux rule lim dur cur fuel → p.1 ≤ lim := by
  intro fuel
  induction fuel with
  | zero => intro cur p hp; simp [expandAux] at hp
  | succ n ih =>
    intro cur p hp
    simp only [expandAux] at hp
    split at hp
    · simp at hp
    · rename_i hle
      rcases List.mem_cons.mp hp with h | h
      · rw [h]; omega
      · exact ih _ _ h

theorem expandAux_dur (rule : RecRule) (lim dur : Int) :
    ∀ (fuel : Nat) (cur : Int) (p : Int × Int),
      p ∈ expandAux rule lim dur cur fuel → p.2 = p.1 + dur := by
  intro fuel
  induction fuel with
  | zero => intro cur p hp; simp [expandAux] at hp
  | succ n ih =>
    intro cur p hp
    simp only [expandAux] at hp
    split at hp
    · simp at hp
    · rcases List.mem_cons.mp hp with h | h
      · rw [h]
      · exact ih _ _ h

theorem expandAux_chain_lt (rule : RecRule) (lim dur : Int) :
    ∀ (fuel : Nat) (cur : Int),
      List.Chain (· < ·) cur ((expandAux rule lim dur cur fuel).map Prod.fst) := by
  intro fuel
  induction fuel with
  | zero => intro cur; simp [expandAux]
  | succ n ih =>
    intro cur
    simp only [expandAux]
    split
    · simp
    · simp only [List.map_cons]
      exact List.Chain.cons (nextDate_gt rule cur) (ih _)

end SKC

namespace SKC

theorem nextDate_specific_weekday (ord : RecOrdinal) (target cur : Int)
    (h0 : 0 ≤ target) (h7 : target < 7) :
    weekday (nextDate (.specificDay ord target) cur) = target := by
  cases ord with
  | every => exact nextWeekdayDate_weekday cur target h0 h7
  | everyOther =>
    have hw := nextWeekdayDate_weekday cur target h0 h7
    simp only [nextDate]
    rw [addDate_days]
    unfold weekday at hw ⊢
    omega

theorem nextDate_specific_gap (ord : RecOrdinal) (target cur : Int)
    (h0 : 0 ≤ target) (h7 : target < 7) (hw : weekday cur = target) :
    nextDate (.specificDay ord target) cur =
      cur + (if ord = RecOrdinal.every then 7 else 14) * 86400 := by
  cases ord with
  | every =>
    simp only [nextDate]
    rw [nextWeekdayDate_of_eq cur target h0 h7 hw]
    norm_num
  | everyOther =>
    simp only [nextDate]
    rw [nextWeekdayDate_of_eq cur target h0 h7 hw, addDate_days,
      if_neg (by simp : ¬ (RecOrdinal.everyOther = RecOrdinal.every))]
    ring

theorem expandAux_specific_weekday (ord : RecOrdinal) (target lim dur : Int)
    (h0 : 0 ≤ target) (h7 : target < 7) :
    ∀ (fuel : Nat) (cur : Int) (p : Int × Int),
      p ∈ expandAux (.specificDay ord target) lim dur cur fuel → weekday p.1 = target := by
  intro fuel
  induction fuel with
  | zero => intro cur p hp; simp [expandAux] at hp
  | succ n ih =>
    intro cur p hp
    simp only [expandAux] at hp
    split at hp
    · simp at hp
    · rcases List.mem_cons.mp hp with h | h
      · rw [h]
        exact nextDate_specific_weekday ord target cur h0 h7
      · exact ih _ _ h

theorem expandAux_specific_chain (ord : RecOrdinal) (target lim dur : Int)
    (h0 : 0 ≤ target) (h7 : target < 7) :
    ∀ (fuel : Nat) (cur : Int),
      List.Chain' (fun p q : Int × Int =>
        q.1 = p.1 + (if ord = RecOrdinal.every then 7 else 14) * 86400)
        (expandAux (.specificDay ord target) lim dur cur fuel) := by
  intro fuel
  induction fuel with
  | zero => intro cur; simp [expandAux]
  | succ n ih =>
    intro cur
    simp only [expandAux]
    by_cases hlim : lim < nextDate (.specificDay ord target) cur
    · rw [if_pos hlim]
      simp
    · rw [if_neg hlim, List.chain'_cons']
      refine ⟨?_, ih _⟩
      intro b hb
      cases n with
      | zero => simp [expandAux] at hb
      | succ m =>
        simp only [expandAux] at hb
        by_cases hlim2 : lim < nextDate (.specificDay ord target)
            (nextDate (.specificDay ord target) cur)
        · rw [if_pos hlim2] at hb
          simp at hb
        · rw [if_neg hlim2] at hb
          simp only [List.head?_cons, Option.mem_def, Option.some.injEq] at hb
          rw [← hb]
          have hwd : weekday (nextDate (.specificDay ord target) cur) = target :=
            nextDate_specific_weekday ord target cur h0 h7
          exact nextDate_specific_gap ord target _ h0 h7 hwd

theorem expandAux_head (rule : RecRule) (lim dur cur : Int) (fuel : Nat)
    (h : nextDate rule cur ≤ lim) :
    (expandAux rule lim dur cur (fuel + 1)).head? =
      some (nextDate rule cur, nextDate rule cur + dur) := by
  simp only [expandAux]
  rw [if_neg (by omega : ¬ lim < nextDate rule cur)]
  rfl

/-- C2: expansion is a total function with an explicit budget of 100
emissions (the `for count < 100` loop, embedded as `Nat` fuel 100), so at
most 100 occurrences are generated beyond the base; every emitted start
is at most `base.start.AddDate(1, 0, 0)`; a computed date strictly after
that boundary is never emitted and ends generation (the loop body returns
the empty suffix); a computed date exactly on the boundary is emitted
(the comparison is strict `After`). -/
theorem claim_expand_bounded (rule : RecRule) (s e : Int) :
    (expand rule s e).length ≤ 100 ∧
    (∀ p ∈ expand rule s e, p.1 ≤ addDate s 1 0 0) ∧
    (∀ (cur : Int) (fuel : Nat), addDate s 1 0 0 < nextDate rule cur →
      expandAux rule (addDate s 1 0 0) (e - s) cur fuel = []) ∧
    (nextDate rule s ≤ addDate s 1 0 0 →
      (expand rule s e).head? = some (nextDate rule s, nextDate rule s + (e - s))) := by
  refine ⟨expandAux_length_le rule _ _ 100 s,
    fun p hp => expandAux_start_le rule _ _ 100 s p hp, ?_, ?_⟩
  · intro cur fuel h
    cases fuel with
    | zero => rfl
    | succ n =>
      simp only [expandAux]
      rw [if_pos h]
  · intro h
    exact expandAux_head rule (addDate s 1 0 0) (e - s) s 99 h

/-- C3: for every rule (Interval with clamped count ≥ 1 as well as
Specific Day), the generated start timestamps together with the base start
are pairwise strictly increasing in generation order — so no two
occurrences of the series share a start — and every generated occurrence's
duration (end − start) equals the base's duration. -/
theorem claim_expand_strictly_increasing (rule : RecRule) (s e : Int) :
    List.Pairwise (· < ·) (s :: (expand rule s e).map Prod.fst) ∧
    ∀ p ∈ expand rule s e, p.2 - p.1 = e - s := by
  constructor
  · exact List.chain_iff_pairwise.mp (expandAux_chain_lt rule _ _ 100 s)
  · intro p hp
    have := expandAux_dur rule (addDate s 1 0 0) (e - s) 100 s p hp
    omega

/-- C4: under a Specific-Day rule with a real weekday target (0–6, the
only values `recDaySelect` produces), every generated occurrence falls on
the configured weekday, and consecutive generated occurrences are exactly
7 days apart for "Every" and exactly 14 days apart for "Every Other". -/
theorem claim_expand_specific_weekday (ord : RecOrdinal) (target s e : Int)
    (h0 : 0 ≤ target) (h7 : target < 7) :
    (∀ p ∈ expand (.specificDay ord target) s e, weekday p.1 = target) ∧
    List.Chain' (fun p q : Int × Int =>
      q.1 = p.1 + (if ord = RecOrdinal.every then 7 else 14) * 86400)
      (expand (.specificDay ord target) s e) := by
  exact ⟨fun p hp => expandAux_specific_weekday ord target _ _ h0 h7 100 s p hp,
    expandAux_specific_chain ord target _ _ h0 h7 100 s⟩

/-- C4 witness: the contract instantiated at the Monday target (1) and a
concrete base timestamp. -/
theorem claim_expand_specific_weekday_witness :
    (∀ p ∈ expand (.specificDay RecOrdinal.every 1)
        (mkTime 2024 3 5 9 0 0) (mkTime 2024 3 5 10 0 0), weekday p.1 = 1) ∧
    List.Chain' (fun p q : Int × Int =>
      q.1 = p.1 + (if RecOrdinal.every = RecOrdinal.every then 7 else 14) * 86400)
      (expand (.specificDay RecOrdinal.every 1)
        (mkTime 2024 3 5 9 0 0) (mkTime 2024 3 5 10 0 0)) :=
  claim_expand_specific_weekday RecOrdinal.every 1
    (mkTime 2024 3 5 9 0 0) (mkTime 2024 3 5 10 0 0) (by norm_num) (by norm_num)

end SKC

namespace SKC

/-- C1: the scoped-delete contract of `performSmartDelete`, for a store in
which the target identity is found. "This Only" removes exactly the
occurrences bearing the target identity and leaves everything else in
place (as the unchanged filtered list); any scope behaves that way when
the target has no series identity; for a series target, "All" removes
exactly the occurrences sharing the target's series identity, and "This +
Future" removes exactly the same-series occurrences whose start is not
before the target's start, retaining earlier same-series occurrences and
everything outside the series. -/
theorem claim_smart_delete_scopes (items : List TodoItem) (tid : String) (t : TodoItem)
    (hfind : items.find? (fun i => i.id == tid) = some t) :
    (performSmartDelete items tid DeleteScope.thisOnly =
        items.filter (fun i => !(i.id == tid)) ∧
      ∀ i : TodoItem, i ∈ performSmartDelete items tid DeleteScope.thisOnly ↔
        i ∈ items ∧ ¬ i.id = tid) ∧
    (t.seriesID = "" → ∀ sc : DeleteScope,
      performSmartDelete items tid sc = items.filter (fun i => !(i.id == tid))) ∧
    (t.seriesID ≠ "" →
      (∀ i : TodoItem, i ∈ performSmartDelete items tid DeleteScope.all ↔
        i ∈ items ∧ ¬ i.seriesID = t.seriesID) ∧
      (∀ i : TodoItem, i ∈ performSmartDelete items tid DeleteScope.thisAndFuture ↔
        i ∈ items ∧ (¬ i.seriesID = t.seriesID ∨ i.start < t.start))) := by
  have honly : performSmartDelete items tid DeleteScope.thisOnly =
      items.filter (fun i => !(i.id == tid)) := by
    simp only [performSmartDelete, hfind]
    split <;> rfl
  refine ⟨⟨honly, ?_⟩, ?_, ?_⟩
  · intro i
    rw [honly]
    simp [List.mem_filter]
  · intro hs sc
    simp only [performSmartDelete, hfind]
    rw [if_pos hs]
  · intro hs
    constructor
    · intro i
      simp only [performSmartDelete, hfind]
      rw [if_neg hs]
      simp [List.mem_filter]
    · intro i
      simp only [performSmartDelete, hfind]
      rw [if_neg hs]
      simp [List.mem_filter]

/-- C1 witness: the contract on a concrete five-occurrence series plus one
non-series record, deleting the third occurrence with This + Future,
checked at the fourth occurrence. -/
theorem claim_smart_delete_scopes_witness :
    (⟨"o4", "t", 4, 4, ItemType.Task, "g", false, "s"⟩ : TodoItem) ∈
        performSmartDelete
          [⟨"o1", "t", 1, 1, ItemType.Task, "g", false, "s"⟩,
           ⟨"o2", "t", 2, 2, ItemType.Task, "g", false, "s"⟩,
           ⟨"o3", "t", 3, 3, ItemType.Task, "g", false, "s"⟩,
           ⟨"o4", "t", 4, 4, ItemType.Task, "g", false, "s"⟩,
           ⟨"o5", "t", 5, 5, ItemType.Task, "g", false, "s"⟩,
           ⟨"x", "t", 0, 0, ItemType.Task, "g", false, ""⟩]
          "o3" DeleteScope.thisAndFuture ↔
      (⟨"o4", "t", 4, 4, ItemType.Task, "g", false, "s"⟩ : TodoItem) ∈
          [⟨"o1", "t", 1, 1, ItemType.Task, "g", false, "s"⟩,
           ⟨"o2", "t", 2, 2, ItemType.Task, "g", false, "s"⟩,
           ⟨"o3", "t", 3, 3, ItemType.Task, "g", false, "s"⟩,
           ⟨"o4", "t", 4, 4, ItemType.Task, "g", false, "s"⟩,
           ⟨"o5", "t", 5, 5, ItemType.Task, "g", false, "s"⟩,
           ⟨"x", "t", 0, 0, ItemType.Task, "g", false, ""⟩] ∧
        (¬ (⟨"o4", "t", 4, 4, ItemType.Task, "g", false, "s"⟩ : TodoItem).seriesID =
            (⟨"o3", "t", 3, 3, ItemType.Task, "g", false, "s"⟩ : TodoItem).seriesID ∨
          (⟨"o4", "t", 4, 4, ItemType.Task, "g", false, "s"⟩ : TodoItem).start <
            (⟨"o3", "t", 3, 3, ItemType.Task, "g", false, "s"⟩ : TodoItem).start) :=
  ((claim_smart_delete_scopes _ "o3" _ (by decide)).2.2 (by decide)).2
    ⟨"o4", "t", 4, 4, ItemType.Task, "g", false, "s"⟩

theorem matchesDay_eq_true_iff (item : TodoItem) (ds de : Int) :
    matchesDay item ds de = true ↔
      (item.start < de ∧ (item.endTime > ds ∨ item.endTime = ds)) := by
  simp [matchesDay]

/-- C5: the rendering membership test is exactly
`start < dayEnd ∧ (end > dayStart ∨ end = dayStart)`; consequently a Task
at 2024-03-05 09:00 (start = end) matches the civil day 2024-03-05 and no
other day, and an Event from 2024-03-05 22:00 to 2024-03-06 01:00 matches
exactly the civil days 2024-03-05 and 2024-03-06 (days quantified by their
day number, `rataDie`). -/
theorem claim_overlap_matcher :
    (∀ (item : TodoItem) (ds de : Int), matchesDay item ds de = true ↔
      (item.start < de ∧ (item.endTime > ds ∨ item.endTime = ds))) ∧
    (∀ y m d : Int,
      matchesDay ⟨"t1", "T", mkTime 2024 3 5 9 0 0, mkTime 2024 3 5 9 0 0,
          ItemType.Task, "g", false, ""⟩
        (dayStartOf y m d) (dayEndOf y m d) = true ↔
        rataDie y m d = rataDie 2024 3 5) ∧
    (∀ y m d : Int,
      matchesDay ⟨"e1", "E", mkTime 2024 3 5 22 0 0, mkTime 2024 3 6 1 0 0,
          ItemType.Event, "g", false, ""⟩
        (dayStartOf y m d) (dayEndOf y m d) = true ↔
        (rataDie y m d = rataDie 2024 3 5 ∨ rataDie y m d = rataDie 2024 3 6)) := by
  refine ⟨matchesDay_eq_true_iff, ?_, ?_⟩
  · intro y m d
    rw [matchesDay_eq_true_iff]
    unfold dayStartOf dayEndOf mkTime rataDie
    dsimp only
    omega
  · intro y m d
    rw [matchesDay_eq_true_iff]
    unfold dayStartOf dayEndOf mkTime rataDie
    dsimp only
    omega

end SKC

namespace SKC

theorem updatedItem_preserves (title groupSel typeSel : String) (tv : SidebarTimes)
    (groups : List Group) (item : TodoItem) :
    (updatedItem title groupSel typeSel tv groups item).id = item.id ∧
    (updatedItem title groupSel typeSel tv groups item).seriesID = item.seriesID ∧
    (updatedItem title groupSel typeSel tv groups item).completed = item.completed := by
  by_cases he : typeSel = "Event" <;> simp [updatedItem, he]

/-- C9: a single-occurrence edit through `autoSave` only rewrites the
target: the result has the same length, every position other than the
first index bearing the edit identity is unchanged, and the rewritten
entry keeps its identity, series identity and completion flag — only
title/group/type/start/end change (it is exactly `updatedItem` of the old
entry). No error is surfaced. -/
theorem claim_autoSave_frame (eid title groupSel typeSel : String) (tv : SidebarTimes)
    (groups : List Group) (items : List TodoItem) (idx : Nat)
    (heid : eid ≠ "") (htitle : title ≠ "")
    (hfind : items.findIdx? (fun i => i.id == eid) = some idx) :
    (autoSave eid title groupSel typeSel tv groups items).1 = none ∧
    (autoSave eid title groupSel typeSel tv groups items).2.length = items.length ∧
    (∀ j : Nat, j ≠ idx →
      (autoSave eid title groupSel typeSel tv groups items).2[j]? = items[j]?) ∧
    (∀ it : TodoItem, items[idx]? = some it →
      ∃ u : TodoItem,
        (autoSave eid title groupSel typeSel tv groups items).2[idx]? = some u ∧
        u.id = it.id ∧ u.seriesID = it.seriesID ∧ u.completed = it.completed ∧
        u = updatedItem title groupSel typeSel tv groups it) := by
  simp only [autoSave, if_neg heid, if_neg htitle, hfind]
  rcases hit : items[idx]? with _ | it
  · refine ⟨rfl, rfl, fun j _ => rfl, ?_⟩
    intro it h
    exact Option.noConfusion h
  · have hlt : idx < items.length := by
      by_contra hge
      rw [List.getElem?_eq_none (by omega)] at hit
      exact absurd hit (by simp)
    refine ⟨rfl, by simp, ?_, ?_⟩
    · intro j hj
      exact List.getElem?_set_ne (Ne.symm hj)
    · intro it2 h2
      have heq : it2 = it := by injection h2 with h3; exact h3.symm
      subst heq
      refine ⟨updatedItem title groupSel typeSel tv groups it2, ?_,
        (updatedItem_preserves title groupSel typeSel tv groups it2).1,
        (updatedItem_preserves title groupSel typeSel tv groups it2).2.1,
        (updatedItem_preserves title groupSel typeSel tv groups it2).2.2, rfl⟩
      show (items.set idx (updatedItem title groupSel typeSel tv groups it2))[idx]? = _
      rw [List.getElem?_set_self', List.getElem?_eq_getElem hlt]
      rfl

/-- C9 witness: the frame property on a concrete two-item store, editing
the first item. -/
theorem claim_autoSave_frame_witness :
    (autoSave "a" "newT" "Work" "Task" ⟨10, 9, 0, false, 10, 9, 0, false, 10, 9, 0, false⟩
        [⟨"g1", "Work", "#3498DB", ""⟩]
        [⟨"a", "t", 1, 1, ItemType.Task, "g1", false, "s"⟩,
         ⟨"b", "t", 2, 2, ItemType.Task, "g1", false, "s"⟩]).1 = none ∧
    (autoSave "a" "newT" "Work" "Task" ⟨10, 9, 0, false, 10, 9, 0, false, 10, 9, 0, false⟩
        [⟨"g1", "Work", "#3498DB", ""⟩]
        [⟨"a", "t", 1, 1, ItemType.Task, "g1", false, "s"⟩,
         ⟨"b", "t", 2, 2, ItemType.Task, "g1", false, "s"⟩]).2.length =
      ([⟨"a", "t", 1, 1, ItemType.Task, "g1", false, "s"⟩,
        ⟨"b", "t", 2, 2, ItemType.Task, "g1", false, "s"⟩] : List TodoItem).length ∧
    (∀ j : Nat, j ≠ 0 →
      (autoSave "a" "newT" "Work" "Task" ⟨10, 9, 0, false, 10, 9, 0, false, 10, 9, 0, false⟩
          [⟨"g1", "Work", "#3498DB", ""⟩]
          [⟨"a", "t", 1, 1, ItemType.Task, "g1", false, "s"⟩,
           ⟨"b", "t", 2, 2, ItemType.Task, "g1", false, "s"⟩]).2[j]? =
        ([⟨"a", "t", 1, 1, ItemType.Task, "g1", false, "s"⟩,
          ⟨"b", "t", 2, 2, ItemType.Task, "g1", false, "s"⟩] : List TodoItem)[j]?) ∧
    (∀ it : TodoItem,
      ([⟨"a", "t", 1, 1, ItemType.Task, "g1", false, "s"⟩,
        ⟨"b", "t", 2, 2, ItemType.Task, "g1", false, "s"⟩] : List TodoItem)[(0 : Nat)]? =
          some it →
      ∃ u : TodoItem,
        (autoSave "a" "newT" "Work" "Task" ⟨10, 9, 0, false, 10, 9, 0, false, 10, 9, 0, false⟩
            [⟨"g1", "Work", "#3498DB", ""⟩]
            [⟨"a", "t", 1, 1, ItemType.Task, "g1", false, "s"⟩,
             ⟨"b", "t", 2, 2, ItemType.Task, "g1", false, "s"⟩]).2[(0 : Nat)]? = some u ∧
        u.id = it.id ∧ u.seriesID = it.seriesID ∧ u.completed = it.completed ∧
        u = updatedItem "newT" "Work" "Task"
          ⟨10, 9, 0, false, 10, 9, 0, false, 10, 9, 0, false⟩
          [⟨"g1", "Work", "#3498DB", ""⟩] it) :=
  claim_autoSave_frame "a" "newT" "Work" "Task"
    ⟨10, 9, 0, false, 10, 9, 0, false, 10, 9, 0, false⟩
    [⟨"g1", "Work", "#3498DB", ""⟩]
    [⟨"a", "t", 1, 1, ItemType.Task, "g1", false, "s"⟩,
     ⟨"b", "t", 2, 2, ItemType.Task, "g1", false, "s"⟩] 0
    (by decide) (by decide) (by decide)

/-- C10: with an empty title, or no edit in progress (empty edit
identity), or no stored item bearing the edit identity, `autoSave` leaves
the store untouched and surfaces no error — a silent no-op. -/
theorem claim_autoSave_noop (eid title groupSel typeSel : String) (tv : SidebarTimes)
    (groups : List Group) (items : List TodoItem)
    (h : eid = "" ∨ title = "" ∨ items.findIdx? (fun i => i.id == eid) = none) :
    autoSave eid title groupSel typeSel tv groups items = (none, items) := by
  unfold autoSave
  rcases h with h | h | h
  · rw [if_pos h]
  · by_cases he : eid = ""
    · rw [if_pos he]
    · rw [if_neg he, if_pos h]
  · by_cases he : eid = ""
    · rw [if_pos he]
    · by_cases ht : title = ""
      · rw [if_neg he, if_pos ht]
      · rw [if_neg he, if_neg ht, h]

/-- C10 witness: an edit attempt with an edit identity absent from the
store is a silent no-op. -/
theorem claim_autoSave_noop_witness :
    autoSave "zz" "T" "Work" "Task" ⟨10, 9, 0, false, 10, 9, 0, false, 10, 9, 0, false⟩
        [⟨"g1", "Work", "#3498DB", ""⟩]
        [⟨"a", "t", 1, 1, ItemType.Task, "g1", false, "s"⟩] =
      (none, [⟨"a", "t", 1, 1, ItemType.Task, "g1", false, "s"⟩]) :=
  claim_autoSave_noop "zz" "T" "Work" "Task"
    ⟨10, 9, 0, false, 10, 9, 0, false, 10, 9, 0, false⟩
    [⟨"g1", "Work", "#3498DB", ""⟩]
    [⟨"a", "t", 1, 1, ItemType.Task, "g1", false, "s"⟩]
    (Or.inr (Or.inr (by decide)))

end SKC

namespace SKC

/-- C8 counterexample: a create request with a non-empty title but no
group selected (the selection matches no group name), against a non-empty
group list: no validation error is surfaced and the store changes — the
code silently substitutes the first group instead of aborting. -/
theorem claim_create_validation_cex :
    (handleSidebarAction
        ⟨"T", "", "Task", ⟨0, 9, 0, false, 0, 9, 0, false, 0, 9, 0, false⟩, false,
          RecRule.interval 1 RecUnit.weeks, "id1", "s1", fun _ => "g"⟩
        [⟨"g1", "Work", "#3498DB", ""⟩] []).1 = none ∧
    (handleSidebarAction
        ⟨"T", "", "Task", ⟨0, 9, 0, false, 0, 9, 0, false, 0, 9, 0, false⟩, false,
          RecRule.interval 1 RecUnit.weeks, "id1", "s1", fun _ => "g"⟩
        [⟨"g1", "Work", "#3498DB", ""⟩] []).2 ≠ ([] : List TodoItem) := by
  constructor
  · rfl
  · decide

/-- C8 amended: an empty title always surfaces a validation error and
leaves the store unchanged; a create request with no group selected
surfaces that error and leaves the store unchanged only when the group
list is empty — with a non-empty group list (whose first group has a
non-empty identity, as all minted group identities do) the first group is
silently substituted and creation proceeds, growing the store. -/
theorem claim_create_validation (inp : CreateInput) (groups : List Group)
    (items : List TodoItem) :
    (inp.title = "" →
      handleSidebarAction inp groups items = (some "title required", items)) ∧
    (inp.title ≠ "" → groups = [] →
      handleSidebarAction inp groups items = (some "please select a group", items)) ∧
    (inp.title ≠ "" → ∀ (g : Group) (gs : List Group), groups = g :: gs →
      groups.find? (fun x => x.name == inp.groupSel) = none → g.id ≠ "" →
      (handleSidebarAction inp groups items).1 = none ∧
      items.length < (handleSidebarAction inp groups items).2.length) := by
  refine ⟨?_, ?_, ?_⟩
  · intro h
    unfold handleSidebarAction
    rw [if_pos h]
  · intro h hg
    subst hg
    unfold handleSidebarAction
    rw [if_neg h]
    simp
  · intro h g gs hg hfind hid
    subst hg
    unfold handleSidebarAction
    rw [if_neg h]
    simp only [hfind, if_pos rfl, if_true]
    rw [if_neg hid]
    refine ⟨rfl, ?_⟩
    simp

end SKC

namespace SKC

/-- The default group an imported item is filed under: the first group's
identity, or empty when no groups exist (the `targetGroupID` of
`importICS`). -/
def defaultGroupID (groups : List Group) : String :=
  match groups with
  | [] => ""
  | g :: _ => g.id

theorem formatICalUTC_lastZ (t : Int) : (formatICalUTC t).toList.getLast? = some 'Z' := by
  unfold formatICalUTC
  have h1 : ∀ s : String, (s ++ "Z").toList = s.toList ++ ['Z'] := fun s => rfl
  rw [h1, List.getLast?_concat]

theorem parseICalFull_lastZ (v : String) (h : v.toList.getLast? = some 'Z') :
    parseICalFull v = none := by
  unfold parseICalFull
  split
  · rename_i y1 y2 y3 y4 mo1 mo2 d1 d2 h1 h2 mi1 mi2 s1 s2 heq
    rw [heq] at h
    simp at h
    rw [if_neg]
    intro hc
    obtain ⟨hb, _⟩ := hc
    rw [h] at hb
    simp at hb
  · rfl

theorem parseICalDate_lastZ (v : String) (h : v.toList.getLast? = some 'Z') :
    parseICalDate v = none := by
  unfold parseICalDate
  split
  · rename_i y1 y2 y3 y4 mo1 mo2 d1 d2 heq
    rw [heq] at h
    simp at h
    rw [if_neg]
    intro hc
    obtain ⟨hb, _⟩ := hc
    rw [h] at hb
    simp at hb
  · rfl

theorem goParseStart_format (t : Int) : goParseStart (formatICalUTC t) = goZeroTime := by
  unfold goParseStart
  rw [parseICalFull_lastZ _ (formatICalUTC_lastZ t),
    parseICalDate_lastZ _ (formatICalUTC_lastZ t)]

theorem goParseEnd_format (t : Int) : goParseEnd (formatICalUTC t) = goZeroTime := by
  unfold goParseEnd
  rw [parseICalFull_lastZ _ (formatICalUTC_lastZ t),
    parseICalDate_lastZ _ (formatICalUTC_lastZ t)]
  simp

/-- The item actually produced by importing one exported record: the
title gains the bracketed group-name tag, the type collapses to `Task`
and both timestamps to Go's zero time — the exporter's
"20060102T150405Z" strings fail both import parse layouts — and the
series identity is dropped. -/
def roundTripped (groups : List Group) (tgid nid : String) (it : TodoItem) : TodoItem :=
  ⟨nid,
    "[" ++ (match groups.find? (fun gg => gg.id == it.groupID) with
      | some gg => gg.name
      | none => "") ++ "] " ++ it.title,
    goZeroTime, goZeroTime, ItemType.Task, tgid, false, ""⟩

theorem importEvent_exportEvent (groups : List Group) (tgid nid : String) (it : TodoItem) :
    importEvent tgid nid (exportEvent groups it) = some (roundTripped groups tgid nid it) := by
  unfold exportEvent importEvent
  simp only [goParseStart_format, goParseEnd_format]
  rw [if_neg (by simp)]
  rfl

theorem importICSAux_export (groups : List Group) (tgid : String) (genID : Nat → String) :
    ∀ (its : List TodoItem) (count : Nat),
      (importICSAux tgid genID count (its.map (exportEvent groups))).length = its.length ∧
      ∀ (k : Nat) (it : TodoItem), its[k]? = some it →
        (importICSAux tgid genID count (its.map (exportEvent groups)))[k]? =
          some (roundTripped groups tgid (genID (count + k)) it) := by
  intro its
  induction its with
  | nil =>
    intro count
    refine ⟨rfl, ?_⟩
    intro k it h
    simp at h
  | cons x xs ih =>
    intro count
    simp only [List.map_cons, importICSAux, importEvent_exportEvent]
    constructor
    · simp [(ih (count + 1)).1]
    · intro k it h
      cases k with
      | zero =>
        simp only [List.getElem?_cons_zero, Option.some.injEq] at h
        subst h
        simp
      | succ n =>
        simp only [List.getElem?_cons_succ] at h ⊢
        have := (ih (count + 1)).2 n it h
        rw [this]
        have e : count + 1 + n = count + (n + 1) := by omega
        rw [e]

/-- C6 counterexample: exporting then importing a store with one event
"Standup" (2024-03-05 09:00–10:00, group "Work") yields an item titled
"[Work] Standup" whose start and end are Go's zero time and whose type is
`Task`: the export serializes timestamps as UTC "20060102T150405Z", and
both parse layouts of the importer ("20060102T150405", then "20060102")
reject the trailing `Z`, so `time.Parse` leaves the zero time — so neither titles, nor
timestamps, nor the Task/Event classification survive the round trip. -/
theorem claim_roundtrip_title_cex :
    importICS [⟨"g1", "Work", "#3498DB", ""⟩] (fun _ => "impid")
        (exportICS [⟨"g1", "Work", "#3498DB", ""⟩]
          [⟨"i1", "Standup", mkTime 2024 3 5 9 0 0, mkTime 2024 3 5 10 0 0,
            ItemType.Event, "g1", false, "ser"⟩]) =
      [⟨"impid", "[Work] Standup", goZeroTime, goZeroTime, ItemType.Task, "g1", false, ""⟩] ∧
    ("[Work] Standup" : String) ≠ "Standup" ∧
    goZeroTime ≠ mkTime 2024 3 5 9 0 0 ∧
    goZeroTime ≠ mkTime 2024 3 5 10 0 0 ∧
    ItemType.Task ≠ ItemType.Event := by
  refine ⟨?_, by decide, by decide, by decide, by decide⟩
  decide

/-- C6 amended: export followed by import preserves the number of
occurrences and, position by position, reproduces the title only up to
the prepended bracketed group-name tag; the start and end timestamps are
not reproduced — the exporter's UTC "…Z" serialization fails both parse
layouts of the importer, so every re-imported occurrence carries Go's
zero time for start and end and is classified `Task` — and the series identity
is dropped. -/
theorem claim_roundtrip (groups : List Group) (genID : Nat → String) (items : List TodoItem) :
    (importICS groups genID (exportICS groups items)).length = items.length ∧
    ∀ (k : Nat) (it : TodoItem), items[k]? = some it →
      ∃ u : TodoItem, (importICS groups genID (exportICS groups items))[k]? = some u ∧
        (∃ gname : String, u.title = "[" ++ gname ++ "] " ++ it.title) ∧
        u.start = goZeroTime ∧ u.endTime = goZeroTime ∧
        u.itemType = ItemType.Task ∧ u.seriesID = "" := by
  have haux := importICSAux_export groups (defaultGroupID groups) genID items 0
  refine ⟨haux.1, ?_⟩
  intro k it h
  exact ⟨roundTripped groups (defaultGroupID groups) (genID (0 + k)) it,
    haux.2 k it h, ⟨_, rfl⟩, rfl, rfl, rfl, rfl⟩

end SKC

set_option maxRecDepth 2000

namespace SKC

/-- C7 counterexample: expanding a base occurrence of 2024-01-31 10:00
with Interval rule count 1 unit Month generates 2024-03-02 10:00 — the
day overflow rolls forward into March — not 2024-02-29, the last valid
day of the resulting month; so Go's `AddDate` does not clamp to
month-end. -/
theorem claim_month_overflow_cex :
    (expand (RecRule.interval 1 RecUnit.months)
        (mkTime 2024 1 31 10 0 0) (mkTime 2024 1 31 10 0 0)).head? =
      some (mkTime 2024 3 2 10 0 0, mkTime 2024 3 2 10 0 0) ∧
    (civil (addDate (mkTime 2024 1 31 10 0 0) 0 1 0)).month = 3 ∧
    (civil (addDate (mkTime 2024 1 31 10 0 0) 0 1 0)).day = 2 ∧
    addDate (mkTime 2024 1 31 10 0 0) 0 1 0 ≠ mkTime 2024 2 29 10 0 0 := by
  refine ⟨?_, by decide, by decide, by decide⟩
  decide

end SKC

/-- C7 amended: when the base day-of-month does not exist in the target
month of a month (or year, via the last conjunct) step, Go's
`AddDate` yields the overflow-normalized date: the civil month advances
one past the target month index and the day-of-month becomes the excess
over the target month's length (e.g. Jan 31 + 1 month = Mar 2 in 2024) —
not the last valid day of the target month. -/
theorem claim_month_overflow (t n : Int)
    (hd : monthLen (isLeap ((monthIdx t + n) / 12)) ((monthIdx t + n) % 12 + 1) <
      (civil t).day) :
    monthIdx (addDate t 0 n 0) = monthIdx t + n + 1 ∧
    (civil (addDate t 0 n 0)).day =
      (civil t).day -
        monthLen (isLeap ((monthIdx t + n) / 12)) ((monthIdx t + n) % 12 + 1) ∧
    (∀ k : Int, addDate t k 0 0 = addDate t 0 (12 * k) 0) := by
  have hyears : ∀ k : Int, addDate t k 0 0 = addDate t 0 (12 * k) 0 := by
    intro k
    rw [addDate_years, addDate_months]
  have h1 : rataDie (civil t).year (civil t).month (civil t).day = t / 86400 := rataDie_civil t
  obtain ⟨hm1, hm2, hd1, hd2⟩ := civil_day_bounds t
  have hd31 : (civil t).day ≤ 31 := le_trans hd2 (monthLen_le _ _)
  have hmi : monthIdx t = 12 * (civil t).year + (civil t).month - 1 := rfl
  have hAdd : addDate t 0 n 0 =
      t + 86400 * (monthStart (monthIdx t + n) - monthStart (monthIdx t)) := addDate_months t n
  unfold rataDie at h1
  rw [← hmi] at h1
  have hdays : (addDate t 0 n 0) / 86400 =
      monthStart (monthIdx t + n) + (civil t).day - 1 := by
    rw [hAdd]
    omega
  have hsucc1 := monthStart_succ (monthIdx t + n)
  have hsucc2 := monthStart_succ (monthIdx t + n + 1)
  have hlen1 := monthLen_ge (isLeap ((monthIdx t + n) / 12)) ((monthIdx t + n) % 12 + 1)
  have hlen2 := monthLen_ge (isLeap ((monthIdx t + n + 1) / 12)) ((monthIdx t + n + 1) % 12 + 1)
  have hb1 : monthStart (monthIdx t + n + 1) ≤ (addDate t 0 n 0) / 86400 := by omega
  have hb2 : (addDate t 0 n 0) / 86400 < monthStart (monthIdx t + n + 1 + 1) := by omega
  have h2 : rataDie (civil (addDate t 0 n 0)).year (civil (addDate t 0 n 0)).month
      (civil (addDate t 0 n 0)).day = (addDate t 0 n 0) / 86400 := rataDie_civil _
  obtain ⟨hm1', hm2', hd1', hd2'⟩ := civil_day_bounds (addDate t 0 n 0)
  have hmi' : monthIdx (addDate t 0 n 0) =
      12 * (civil (addDate t 0 n 0)).year + (civil (addDate t 0 n 0)).month - 1 := rfl
  have hdiv' : monthIdx (addDate t 0 n 0) / 12 = (civil (addDate t 0 n 0)).year := by
    rw [hmi']; omega
  have hmod' : monthIdx (addDate t 0 n 0) % 12 + 1 = (civil (addDate t 0 n 0)).month := by
    rw [hmi']; omega
  have hsucc' := monthStart_succ (monthIdx (addDate t 0 n 0))
  rw [hdiv', hmod'] at hsucc'
  unfold rataDie at h2
  rw [← hmi'] at h2
  have hbm1 : monthStart (monthIdx (addDate t 0 n 0)) ≤ (addDate t 0 n 0) / 86400 := by omega
  have hbm2 : (addDate t 0 n 0) / 86400 < monthStart (monthIdx (addDate t 0 n 0) + 1) := by
    omega
  have huniq := monthStart_bracket_unique ((addDate t 0 n 0) / 86400) hbm1 hbm2 hb1 hb2
  refine ⟨huniq, ?_, hyears⟩
  rw [huniq] at h2
  omega

/-- C7 witness: the amended overflow rule instantiated at
2024-01-31 10:00 plus one month. -/
theorem claim_month_overflow_witness :
    monthLen (isLeap ((monthIdx (mkTime 2024 1 31 10 0 0) + 1) / 12))
        ((monthIdx (mkTime 2024 1 31 10 0 0) + 1) % 12 + 1) <
      (civil (mkTime 2024 1 31 10 0 0)).day ∧
    monthIdx (addDate (mkTime 2024 1 31 10 0 0) 0 1 0) =
      monthIdx (mkTime 2024 1 31 10 0 0) + 1 + 1 :=
  ⟨by decide, (claim_month_overflow (mkTime 2024 1 31 10 0 0) 1 (by decide)).1⟩
